import Mathlib

/-!
# Verification of the chat-widget frontend (`static/app.js`)

A shallow embedding of the single source file of the repository: the DOM
state touched by the widget (the `#chat` log, the two text inputs, the
`typingEl` slot, the module-level `currentUser` variable) is modelled as an
explicit record, JS strings are modelled as `List Char`, and the two
asynchronous handlers `startSession` / `send` are modelled as pure state
transformers parametrised by the outcome of their single `await`ed
network/parse step.  The `renderText` formatting pipeline is embedded with
the exact JS regex-replace semantics (global, left-to-right, lazy `.+?`
that does not cross line terminators).
-/

namespace ChatWidget

/-- JS strings are modelled as lists of characters. -/
abbrev Str := List Char

/-- Whitespace as stripped by `String.prototype.trim` (the code points that
occur in practice here). -/
def isWS (c : Char) : Bool :=
  c = ' ' || c = '\t' || c = '\n' || c = '\r'

/-- `s.trim()`: strip leading and trailing whitespace. -/
def trim (s : Str) : Str :=
  ((s.dropWhile isWS).reverse.dropWhile isWS).reverse

/-! ## Occurrence counting for markup strings

`countSubstr pat s` counts the positions of `s` at which `pat` occurs.
Used to state "exactly one paragraph container" for `renderText`. -/

/-- Number of positions of `s` at which the (nonempty) pattern `pat`
occurs as a substring. -/
def countSubstr (pat : Str) : Str → Nat
  | [] => 0
  | c :: cs => (if pat <+: (c :: cs) then 1 else 0) + countSubstr pat cs

/-! ## The regex-replace pipeline of `renderText`

`text.replace(/pat/g, repl)` for a fixed pattern is `replaceAllChunks`;
`text.replace(/d(.+?)d/g, 'o$1c')` for the emphasis patterns is
`replaceEmphF`.  Both scan left to right and resume after each match,
exactly like the JS regex engine with the `g` flag. -/

/-- `.` in a JS regex matches any character except a line terminator. -/
def dotOk (c : Char) : Bool :=
  !(c = '\n' || c = '\r' || c.val = 0x2028 || c.val = 0x2029)

/-- Lazy search for the closing delimiter `d`: consume at least one
`dotOk` character, stopping at the first point where `d` follows.
Returns the captured group and the text after the closing delimiter. -/
def scanClose (d : Str) : Str → Option (Str × Str)
  | [] => none
  | c :: cs =>
    if dotOk c then
      if d.isPrefixOf cs then some ([c], cs.drop d.length)
      else
        match scanClose d cs with
        | some (inner, rest) => some (c :: inner, rest)
        | none => none
    else none

/-- First full match of `d(.+?)d` in `s`: returns
`(pre, inner, post)` with `s = pre ++ d ++ inner ++ d ++ post`, the match
being at the leftmost possible position with the lazily shortest group. -/
def findEmph (d : Str) : Str → Option (Str × Str × Str)
  | [] => none
  | c :: cs =>
    (if d.isPrefixOf (c :: cs) then
      match scanClose d ((c :: cs).drop d.length) with
      | some (inner, post) => some ([], inner, post)
      | none =>
        match findEmph d cs with
        | some (pre, inner, post) => some (c :: pre, inner, post)
        | none => none
    else
      match findEmph d cs with
      | some (pre, inner, post) => some (c :: pre, inner, post)
      | none => none)

/-- Global replacement of `d(.+?)d` by `o $1 cl`, resuming after each
match.  `fuel` bounds the number of matches; every match consumes at
least `2*|d|+1` characters of the remaining text, so `fuel = s.length`
is always enough. -/
def replaceEmphF (d o cl : Str) : Nat → Str → Str
  | 0, s => s
  | fuel + 1, s =>
    match findEmph d s with
    | none => s
    | some (pre, inner, post) => pre ++ o ++ inner ++ cl ++ replaceEmphF d o cl fuel post

/-- First occurrence of the fixed pattern `pat` in `s`: returns
`(pre, post)` with `s = pre ++ pat ++ post`. -/
def splitAtMatch (pat : Str) : Str → Option (Str × Str)
  | [] => none
  | c :: cs =>
    (if pat.isPrefixOf (c :: cs) then some ([], (c :: cs).drop pat.length)
    else
      match splitAtMatch pat cs with
      | some (pre, post) => some (c :: pre, post)
      | none => none)

/-- Global replacement of the fixed pattern `pat` by `repl`, resuming
after each match (`text.replace(/pat/g, repl)`). -/
def replaceAllChunks (pat repl : Str) : Nat → Str → Str
  | 0, s => s
  | fuel + 1, s =>
    match splitAtMatch pat s with
    | none => s
    | some (pre, post) => pre ++ repl ++ replaceAllChunks pat repl fuel post

/-- First substitution of `renderText`: `﹡﹡(.+?)﹡﹡` ↦
`<strong>$1</strong>` globally (`﹡` stands for the asterisk delimiter
of the JS regex literal). -/
def boldPass (s : Str) : Str :=
  replaceEmphF "**".toList "<strong>".toList "</strong>".toList s.length s

/-- Second substitution of `renderText`: `﹡(.+?)﹡` ↦ `<em>$1</em>`
globally. -/
def italPass (s : Str) : Str :=
  replaceEmphF "*".toList "<em>".toList "</em>".toList s.length s

/-- Third substitution of `renderText`: `\n\n` ↦ `</p><p>` globally. -/
def paraPass (s : Str) : Str :=
  replaceAllChunks "\n\n".toList "</p><p>".toList s.length s

/-- Fourth substitution of `renderText`: `\n-` ↦ `<br>•` globally. -/
def bulletPass (s : Str) : Str :=
  replaceAllChunks "\n-".toList "<br>•".toList s.length s

/-- `renderText(text)`: the four global replacements applied in source
order — bold, then italic, then paragraph breaks, then bullets — and
the result wrapped as `<p>...</p>`. -/
def renderText (text : Str) : Str :=
  "<p>".toList ++ bulletPass (paraPass (italPass (boldPass text))) ++ "</p>".toList

/-! ## The widget state -/

/-- The CSS role class of a message row. -/
inductive Role
  | user
  | assistant
deriving DecidableEq, Repr

/-- A child node of the `#chat` container: either a message row (its
bubble's innerHTML is the rendered markup) or the typing indicator.
Typing indicators carry an id so that the `typingEl` reference can be
modelled as a pointer to one specific node. -/
inductive Entry
  | message (role : Role) (markup : Str)
  | typing (id : Nat)
deriving DecidableEq, Repr

/-- The mutable state the script touches: the children of `#chat`, the
`typingEl` module variable (a reference to a typing node, or null), a
fresh-id counter for created nodes, the `currentUser` module variable and
the two input fields. -/
structure Widget where
  chat : List Entry
  typingEl : Option Nat
  nextId : Nat
  currentUser : Str
  userInputVal : Str
  msgInputVal : Str
deriving DecidableEq, Repr

/-- `addMessage(role, text)`: append one message row whose bubble holds
`renderText(text)` (the scroll update has no modelled effect). -/
def addMessage (role : Role) (text : Str) (w : Widget) : Widget :=
  { w with chat := w.chat ++ [Entry.message role (renderText text)] }

/-- `showTyping()`: no-op if `typingEl` is non-null, otherwise create a
fresh indicator node, append it to the log and store the reference. -/
def showTyping (w : Widget) : Widget :=
  match w.typingEl with
  | some _ => w
  | none =>
    { w with
      chat := w.chat ++ [Entry.typing w.nextId]
      typingEl := some w.nextId
      nextId := w.nextId + 1 }

/-- `hideTyping()`: no-op if `typingEl` is null; otherwise remove the
node from the log only if it is still attached
(`typingEl.parentNode === chat`), then null the reference. -/
def hideTyping (w : Widget) : Widget :=
  match w.typingEl with
  | none => w
  | some id =>
    if Entry.typing id ∈ w.chat then
      { w with chat := w.chat.erase (Entry.typing id), typingEl := none }
    else
      { w with typingEl := none }

/-! ## The two handlers and their network steps -/

/-- An HTTP request dispatched by `fetch`, with the fields of its JSON
body. -/
inductive Request
  | start (user_id : Str)
  | chat (user_id message : Str)
deriving DecidableEq, Repr

/-- Parsed JSON body of a `start_session` response; `message` is `none`
when the field is absent (so `data.message` is falsy when `none` or
empty). -/
structure StartData where
  message : Option Str
deriving DecidableEq, Repr

/-- Parsed JSON body of a `chat` response. -/
structure ChatData where
  response : Option Str
deriving DecidableEq, Repr

/-- Outcome of `await fetch(...)` followed by `await res.json()`:
either the whole step throws (network failure or non-JSON body), or it
yields `res.ok` and the parsed body (`none` modelling a falsy parse
result such as JSON `null`). -/
inductive FetchOutcome (δ : Type)
  | error
  | reply (ok : Bool) (data : Option δ)
deriving DecidableEq, Repr

/-- The synchronous prefix of `startSession` up to the `await`: validate
the trimmed user id (empty → `alert`, no request), assign `currentUser`,
show the typing indicator and dispatch the request. -/
def startSessionPre (w : Widget) : Widget × Option Request :=
  let userId := trim w.userInputVal
  if userId = [] then (w, none)
  else
    let w := { w with currentUser := userId }
    (showTyping w, some (Request.start userId))

/-- `'Failed to start session. Please try again.'` -/
def startFailMsg : Str := "Failed to start session. Please try again.".toList

/-- `'Welcome back! You can start chatting.'` -/
def startFallbackMsg : Str := "Welcome back! You can start chatting.".toList

/-- The assistant text chosen by `startSession`'s response handler:
`data.message` when `res.ok && data && data.message` is truthy, the
fallback welcome otherwise. -/
def startMessage (ok : Bool) (data : Option StartData) : Str :=
  match ok, data with
  | true, some d =>
    match d.message with
    | some m => if m = [] then startFallbackMsg else m
    | none => startFallbackMsg
  | _, _ => startFallbackMsg

/-- The continuation of `startSession` after the `await`ed fetch/parse
step resolves or throws. -/
def startSessionResume (o : FetchOutcome StartData) (w : Widget) : Widget :=
  match o with
  | FetchOutcome.error =>
    -- catch: hideTyping(); addMessage('assistant', 'Failed to start session. ...')
    addMessage Role.assistant startFailMsg (hideTyping w)
  | FetchOutcome.reply ok data =>
    -- hideTyping(); chat.innerHTML = ''; then one addMessage either way
    addMessage Role.assistant (startMessage ok data)
      { hideTyping w with chat := [] }

/-- `startSession()` as a whole, for a given outcome of its network
step; also returns the requests it dispatched. -/
def startSession (o : FetchOutcome StartData) (w : Widget) : Widget × List Request :=
  match startSessionPre w with
  | (w1, none) => (w1, [])
  | (w1, some r) => (startSessionResume o w1, [r])

/-- The synchronous prefix of `send` up to the `await`: guard on
non-empty trimmed text and an active session, append the user's message,
clear the input, show the indicator and dispatch the request. -/
def sendPre (w : Widget) : Widget × Option Request :=
  let text := trim w.msgInputVal
  if text = [] ∨ w.currentUser = [] then (w, none)
  else
    let w := addMessage Role.user text w
    let w := { w with msgInputVal := [] }
    (showTyping w, some (Request.chat w.currentUser text))

/-- `'Network error. Please try again.'` -/
def chatFailMsg : Str := "Network error. Please try again.".toList

/-- `'Hmm, I didn’t get a response. Please try again.'` -/
def chatFallbackMsg : Str := "Hmm, I didn’t get a response. Please try again.".toList

/-- The assistant text chosen by `send`'s response handler:
`data.response` when `res.ok && data && data.response` is truthy, the
fallback otherwise. -/
def chatMessage (ok : Bool) (data : Option ChatData) : Str :=
  match ok, data with
  | true, some d =>
    match d.response with
    | some m => if m = [] then chatFallbackMsg else m
    | none => chatFallbackMsg
  | _, _ => chatFallbackMsg

/-- The continuation of `send` after the `await`ed fetch/parse step. -/
def sendResume (o : FetchOutcome ChatData) (w : Widget) : Widget :=
  match o with
  | FetchOutcome.error =>
    addMessage Role.assistant chatFailMsg (hideTyping w)
  | FetchOutcome.reply ok data =>
    addMessage Role.assistant (chatMessage ok data) (hideTyping w)

/-- `send()` as a whole, for a given outcome of its network step. -/
def send (o : FetchOutcome ChatData) (w : Widget) : Widget × List Request :=
  match sendPre w with
  | (w1, none) => (w1, [])
  | (w1, some r) => (sendResume o w1, [r])

/-! ## Counting lemmas for `countSubstr` -/

theorem countSubstr_le_append_left (q a b : Str) :
    countSubstr q a ≤ countSubstr q (a ++ b) := by
  induction a with
  | nil => exact Nat.zero_le _
  | cons c cs ih =>
    show (if q <+: (c :: cs) then 1 else 0) + countSubstr q cs ≤
      (if q <+: (c :: (cs ++ b)) then 1 else 0) + countSubstr q (cs ++ b)
    refine Nat.add_le_add ?_ ih
    by_cases hp : q <+: (c :: cs)
    · have hp2 : q <+: c :: (cs ++ b) := by
        rw [← List.cons_append]; exact hp.trans (List.prefix_append _ _)
      rw [if_pos hp, if_pos hp2]
    · rw [if_neg hp]; exact Nat.zero_le _

theorem countSubstr_le_append_right (q a b : Str) :
    countSubstr q b ≤ countSubstr q (a ++ b) := by
  induction a with
  | nil => exact Nat.le_refl _
  | cons c cs ih =>
    show countSubstr q b ≤ (if q <+: (c :: (cs ++ b)) then 1 else 0) + countSubstr q (cs ++ b)
    exact ih.trans (Nat.le_add_left _ _)

/-- No boundary-spanning occurrence of `q` between `a` and `b`: `q`
cannot be cut into a nonempty suffix of `a` followed by a nonempty
prefix of `b`. -/
def Spanfree (q a b : Str) : Prop :=
  ∀ a₁ b₁ : Str, q = a₁ ++ b₁ → a₁ ≠ [] → b₁ ≠ [] → ¬(a₁ <:+ a ∧ b₁ <+: b)

theorem countSubstr_append (q a b : Str) (h : Spanfree q a b) :
    countSubstr q (a ++ b) = countSubstr q a + countSubstr q b := by
  induction a with
  | nil => simp [countSubstr]
  | cons c cs ih =>
    have hsp : Spanfree q cs b := by
      intro a₁ b₁ hq ha hb hc
      exact h a₁ b₁ hq ha hb ⟨hc.1.trans (List.suffix_cons c cs), hc.2⟩
    show (if q <+: (c :: (cs ++ b)) then 1 else 0) + countSubstr q (cs ++ b) =
      ((if q <+: (c :: cs) then 1 else 0) + countSubstr q cs) + countSubstr q b
    rw [ih hsp]
    have hiff : (q <+: (c :: (cs ++ b))) ↔ (q <+: (c :: cs)) := by
      constructor
      · intro hq
        by_cases hlen : q.length ≤ (c :: cs).length
        · exact List.prefix_of_prefix_length_le hq (List.prefix_append (c :: cs) b) hlen
        · exfalso
          have hle : (c :: cs).length ≤ q.length := Nat.le_of_not_le hlen
          have hca : (c :: cs) <+: q :=
            List.prefix_of_prefix_length_le (List.prefix_append (c :: cs) b) hq hle
          obtain ⟨r, hr⟩ := hca
          have hrne : r ≠ [] := by
            intro hrnil
            rw [hrnil, List.append_nil] at hr
            rw [← hr] at hlen
            exact hlen (Nat.le_refl _)
          have hrb : r <+: b := by
            have := hq
            rw [← hr] at this
            exact (List.prefix_append_right_inj (c :: cs)).mp this
          exact h (c :: cs) r hr.symm (List.cons_ne_nil c cs) hrne
            ⟨List.suffix_refl _, hrb⟩
      · intro hq
        exact hq.trans (List.prefix_append (c :: cs) b)
    rw [if_congr hiff rfl rfl]
    omega

theorem countSubstr_append_zero (q a b : Str) (h : Spanfree q a b)
    (ha : countSubstr q a = 0) (hb : countSubstr q b = 0) :
    countSubstr q (a ++ b) = 0 := by
  rw [countSubstr_append q a b h, ha, hb]

/-- If every nonempty proper suffix of `q` fails to be a prefix of the
concrete block `r`, then no occurrence of `q` can span from anything
into `r ++ rest` (given `q` is at most one longer than `r`). -/
theorem spanfree_into (q r : Str) (hlen : q.length ≤ r.length + 1)
    (hr : ∀ b₁ ∈ q.tails, b₁ = [] ∨ b₁ = q ∨ ¬ b₁ <+: r) :
    ∀ a rest, Spanfree q a (r ++ rest) := by
  intro a rest a₁ b₁ hq ha hb hc
  have hb₁q : b₁ <:+ q := ⟨a₁, hq.symm⟩
  have hblen : b₁.length ≤ r.length := by
    have h1 : a₁.length + b₁.length = q.length := by
      rw [hq, List.length_append]
    have h2 : 1 ≤ a₁.length := List.length_pos.mpr ha
    omega
  have hpr : b₁ <+: r :=
    List.prefix_of_prefix_length_le hc.2 (List.prefix_append r rest) hblen
  rcases hr b₁ ((List.mem_tails b₁ q).mpr hb₁q) with h0 | h0 | h0
  · exact hb h0
  · have : a₁ = [] := by
      have := congrArg List.length hq
      rw [List.length_append, h0] at this
      exact List.length_eq_zero.mp (by omega)
    exact ha this
  · exact h0 hpr

/-- If every nonempty proper prefix of `q` fails to be a suffix of the
concrete block `l`, then no occurrence of `q` can span from
`stuff ++ l` into anything (given `q` is at most one longer than `l`). -/
theorem spanfree_outof (q l : Str) (hlen : q.length ≤ l.length + 1)
    (hl : ∀ a₁ ∈ q.inits, a₁ = [] ∨ a₁ = q ∨ ¬ a₁ <:+ l) :
    ∀ stuff b, Spanfree q (stuff ++ l) b := by
  intro stuff b a₁ b₁ hq ha hb hc
  have ha₁q : a₁ <+: q := ⟨b₁, hq.symm⟩
  have halen : a₁.length ≤ l.length := by
    have h1 : a₁.length + b₁.length = q.length := by
      rw [hq, List.length_append]
    have h2 : 1 ≤ b₁.length := List.length_pos.mpr hb
    omega
  have hsl : a₁ <:+ l :=
    List.suffix_of_suffix_length_le hc.1 (List.suffix_append stuff l) halen
  rcases hl a₁ ((List.mem_inits a₁ q).mpr ha₁q) with h0 | h0 | h0
  · exact ha h0
  · have : b₁ = [] := by
      have := congrArg List.length hq
      rw [List.length_append, h0] at this
      exact List.length_eq_zero.mp (by omega)
    exact hb this
  · exact h0 hsl

/-! ## Decomposition of the scanners -/

theorem scanClose_sound (d : Str) :
    ∀ xs inner rest, scanClose d xs = some (inner, rest) → xs = inner ++ d ++ rest := by
  intro xs
  induction xs with
  | nil => intro inner rest h; simp [scanClose] at h
  | cons c cs ih =>
    intro inner rest h
    simp only [scanClose] at h
    split at h
    · split at h
      · rename_i hpre
        simp only [Option.some.injEq, Prod.mk.injEq] at h
        obtain ⟨rfl, rfl⟩ := h
        obtain ⟨t, ht⟩ := List.isPrefixOf_iff_prefix.mp hpre
        rw [← ht, List.drop_left]
        simp
      · cases hm : scanClose d cs with
        | none => rw [hm] at h; simp at h
        | some p =>
          obtain ⟨inner', rest'⟩ := p
          rw [hm] at h
          simp only [Option.some.injEq, Prod.mk.injEq] at h
          obtain ⟨rfl, rfl⟩ := h
          have hr := ih inner' rest' hm
          rw [hr]
          simp
    · simp at h

theorem findEmph_sound (d : Str) :
    ∀ s pre inner post, findEmph d s = some (pre, inner, post) →
      s = pre ++ d ++ inner ++ d ++ post := by
  intro s
  induction s with
  | nil => intro pre inner post h; simp [findEmph] at h
  | cons c cs ih =>
    intro pre inner post h
    simp only [findEmph] at h
    split at h
    · rename_i hpre
      cases hsc : scanClose d ((c :: cs).drop d.length) with
      | some p =>
        obtain ⟨inner', post'⟩ := p
        rw [hsc] at h
        simp only [Option.some.injEq, Prod.mk.injEq] at h
        obtain ⟨rfl, rfl, rfl⟩ := h
        obtain ⟨t, ht⟩ := List.isPrefixOf_iff_prefix.mp hpre
        have hdrop : (c :: cs).drop d.length = t := by rw [← ht, List.drop_left]
        rw [hdrop] at hsc
        have hts := scanClose_sound d t inner' post' hsc
        rw [← ht, hts]
        simp
      | none =>
        rw [hsc] at h
        cases hm : findEmph d cs with
        | none => rw [hm] at h; simp at h
        | some p =>
          obtain ⟨pre', inner', post'⟩ := p
          rw [hm] at h
          simp only [Option.some.injEq, Prod.mk.injEq] at h
          obtain ⟨rfl, rfl, rfl⟩ := h
          have hr := ih pre' inner' post' hm
          rw [show c :: cs = c :: (pre' ++ d ++ inner' ++ d ++ post') from by rw [← hr]]
          simp
    · cases hm : findEmph d cs with
      | none => rw [hm] at h; simp at h
      | some p =>
        obtain ⟨pre', inner', post'⟩ := p
        rw [hm] at h
        simp only [Option.some.injEq, Prod.mk.injEq] at h
        obtain ⟨rfl, rfl, rfl⟩ := h
        have hr := ih pre' inner' post' hm
        rw [show c :: cs = c :: (pre' ++ d ++ inner' ++ d ++ post') from by rw [← hr]]
        simp

theorem splitAtMatch_sound (pat : Str) :
    ∀ s pre post, splitAtMatch pat s = some (pre, post) → s = pre ++ pat ++ post := by
  intro s
  induction s with
  | nil => intro pre post h; simp [splitAtMatch] at h
  | cons c cs ih =>
    intro pre post h
    simp only [splitAtMatch] at h
    split at h
    · rename_i hpre
      simp only [Option.some.injEq, Prod.mk.injEq] at h
      obtain ⟨rfl, rfl⟩ := h
      obtain ⟨t, ht⟩ := List.isPrefixOf_iff_prefix.mp hpre
      rw [← ht, List.drop_left]
      simp
    · cases hm : splitAtMatch pat cs with
      | none => rw [hm] at h; simp at h
      | some p =>
        obtain ⟨pre', post'⟩ := p
        rw [hm] at h
        simp only [Option.some.injEq, Prod.mk.injEq] at h
        obtain ⟨rfl, rfl⟩ := h
        have hr := ih pre' post' hm
        rw [show c :: cs = c :: (pre' ++ pat ++ post') from by rw [← hr]]
        simp

theorem splitAtMatch_eq_none (pat : Str) :
    ∀ s, countSubstr pat s = 0 → splitAtMatch pat s = none := by
  intro s
  induction s with
  | nil => intro h; rfl
  | cons c cs ih =>
    intro h
    have h1 : ¬ pat <+: (c :: cs) := by
      intro hp
      rw [countSubstr, if_pos hp] at h
      omega
    have h2 : countSubstr pat cs = 0 := by
      rw [countSubstr] at h
      omega
    have h1' : ¬ pat.isPrefixOf (c :: cs) = true := by
      rw [List.isPrefixOf_iff_prefix]; exact h1
    simp only [splitAtMatch, if_neg h1', ih h2]

/-- A `replace(/pat/g, ...)` call leaves a string with no occurrence of
`pat` unchanged. -/
theorem replaceAllChunks_id (pat repl : Str) (f : Nat) (s : Str)
    (h : countSubstr pat s = 0) : replaceAllChunks pat repl f s = s := by
  cases f with
  | zero => rfl
  | succ f => simp only [replaceAllChunks, splitAtMatch_eq_none pat s h]

/-! ## Occurrence preservation through the replacement passes

If the pattern `q` occurs neither in the input nor in the inserted
blocks, and cannot straddle a block boundary, then a global replacement
pass introduces no occurrence of `q`. -/

theorem replaceEmphF_preserve (q d o cl : Str)
    (ho : countSubstr q o = 0) (hcl : countSubstr q cl = 0)
    (hlo : q.length ≤ o.length + 1) (hlcl : q.length ≤ cl.length + 1)
    (hto : ∀ b₁ ∈ q.tails, b₁ = [] ∨ b₁ = q ∨ ¬ b₁ <+: o)
    (hio : ∀ a₁ ∈ q.inits, a₁ = [] ∨ a₁ = q ∨ ¬ a₁ <:+ o)
    (htc : ∀ b₁ ∈ q.tails, b₁ = [] ∨ b₁ = q ∨ ¬ b₁ <+: cl)
    (hic : ∀ a₁ ∈ q.inits, a₁ = [] ∨ a₁ = q ∨ ¬ a₁ <:+ cl) :
    ∀ f s, countSubstr q s = 0 → countSubstr q (replaceEmphF d o cl f s) = 0 := by
  intro f
  induction f with
  | zero => intro s h; exact h
  | succ f ih =>
    intro s h
    simp only [replaceEmphF]
    cases hm : findEmph d s with
    | none => exact h
    | some p =>
      obtain ⟨pre, inner, post⟩ := p
      have hs : s = pre ++ (d ++ (inner ++ (d ++ post))) := by
        rw [findEmph_sound d s pre inner post hm]
        simp [List.append_assoc]
      rw [hs] at h
      have hpre : countSubstr q pre = 0 := by
        have := countSubstr_le_append_left q pre (d ++ (inner ++ (d ++ post)))
        omega
      have hx1 : countSubstr q (d ++ (inner ++ (d ++ post))) = 0 := by
        have := countSubstr_le_append_right q pre (d ++ (inner ++ (d ++ post)))
        omega
      have hx2 : countSubstr q (inner ++ (d ++ post)) = 0 := by
        have := countSubstr_le_append_right q d (inner ++ (d ++ post))
        omega
      have hinner : countSubstr q inner = 0 := by
        have := countSubstr_le_append_left q inner (d ++ post)
        omega
      have hx3 : countSubstr q (d ++ post) = 0 := by
        have := countSubstr_le_append_right q inner (d ++ post)
        omega
      have hpost : countSubstr q post = 0 := by
        have := countSubstr_le_append_right q d post
        omega
      have hrec : countSubstr q (replaceEmphF d o cl f post) = 0 := ih post hpost
      have hA : countSubstr q (cl ++ replaceEmphF d o cl f post) = 0 := by
        have hsp := spanfree_outof q cl hlcl hic [] (replaceEmphF d o cl f post)
        rw [List.nil_append] at hsp
        exact countSubstr_append_zero q cl _ hsp hcl hrec
      have hB : countSubstr q (inner ++ (cl ++ replaceEmphF d o cl f post)) = 0 :=
        countSubstr_append_zero q inner _
          (spanfree_into q cl hlcl htc inner (replaceEmphF d o cl f post)) hinner hA
      have hC : countSubstr q (o ++ (inner ++ (cl ++ replaceEmphF d o cl f post))) = 0 := by
        have hsp := spanfree_outof q o hlo hio [] (inner ++ (cl ++ replaceEmphF d o cl f post))
        rw [List.nil_append] at hsp
        exact countSubstr_append_zero q o _ hsp ho hB
      have hD : countSubstr q
          (pre ++ (o ++ (inner ++ (cl ++ replaceEmphF d o cl f post)))) = 0 :=
        countSubstr_append_zero q pre _
          (spanfree_into q o hlo hto pre (inner ++ (cl ++ replaceEmphF d o cl f post))) hpre hC
      simpa only [List.append_assoc] using hD

theorem replaceAllChunks_preserve (q pat repl : Str)
    (hrepl : countSubstr q repl = 0)
    (hlen : q.length ≤ repl.length + 1)
    (ht : ∀ b₁ ∈ q.tails, b₁ = [] ∨ b₁ = q ∨ ¬ b₁ <+: repl)
    (hi : ∀ a₁ ∈ q.inits, a₁ = [] ∨ a₁ = q ∨ ¬ a₁ <:+ repl) :
    ∀ f s, countSubstr q s = 0 → countSubstr q (replaceAllChunks pat repl f s) = 0 := by
  intro f
  induction f with
  | zero => intro s h; exact h
  | succ f ih =>
    intro s h
    simp only [replaceAllChunks]
    cases hm : splitAtMatch pat s with
    | none => exact h
    | some p =>
      obtain ⟨pre, post⟩ := p
      have hs : s = pre ++ (pat ++ post) := by
        rw [splitAtMatch_sound pat s pre post hm]
        simp [List.append_assoc]
      rw [hs] at h
      have hpre : countSubstr q pre = 0 := by
        have := countSubstr_le_append_left q pre (pat ++ post)
        omega
      have hx1 : countSubstr q (pat ++ post) = 0 := by
        have := countSubstr_le_append_right q pre (pat ++ post)
        omega
      have hpost : countSubstr q post = 0 := by
        have := countSubstr_le_append_right q pat post
        omega
      have hrec : countSubstr q (replaceAllChunks pat repl f post) = 0 := ih post hpost
      have hA : countSubstr q (repl ++ replaceAllChunks pat repl f post) = 0 := by
        have hsp := spanfree_outof q repl hlen hi [] (replaceAllChunks pat repl f post)
        rw [List.nil_append] at hsp
        exact countSubstr_append_zero q repl _ hsp hrepl hrec
      have hB : countSubstr q (pre ++ (repl ++ replaceAllChunks pat repl f post)) = 0 :=
        countSubstr_append_zero q pre _
          (spanfree_into q repl hlen ht pre (replaceAllChunks pat repl f post)) hpre hA
      simpa only [List.append_assoc] using hB

/-- Claim C3, amended: for every input `t` that contains no double
newline and no literal `<p>` or `</p>`, `renderText t` is wrapped in
exactly one paragraph container — it starts with `<p>`, ends with
`</p>`, and contains exactly one occurrence of each tag.  (As stated
the claim is false: each double newline in `t` produces an additional
internal paragraph boundary, and a literal paragraph tag in `t` passes
through unescaped.) -/
theorem renderText_single_container (t : Str)
    (h1 : countSubstr "\n\n".toList t = 0)
    (h2 : countSubstr "<p>".toList t = 0)
    (h3 : countSubstr "</p>".toList t = 0) :
    countSubstr "<p>".toList (renderText t) = 1 ∧
    countSubstr "</p>".toList (renderText t) = 1 ∧
    "<p>".toList <+: renderText t ∧ "</p>".toList <:+ renderText t := by
  -- no pass introduces a blank line, a `<p>` or a `</p>`
  have b1 : countSubstr "\n\n".toList (boldPass t) = 0 :=
    replaceEmphF_preserve "\n\n".toList "**".toList "<strong>".toList "</strong>".toList
      (by decide) (by decide) (by decide) (by decide) (by decide) (by decide) (by decide)
      (by decide) t.length t h1
  have b2 : countSubstr "<p>".toList (boldPass t) = 0 :=
    replaceEmphF_preserve "<p>".toList "**".toList "<strong>".toList "</strong>".toList
      (by decide) (by decide) (by decide) (by decide) (by decide) (by decide) (by decide)
      (by decide) t.length t h2
  have b3 : countSubstr "</p>".toList (boldPass t) = 0 :=
    replaceEmphF_preserve "</p>".toList "**".toList "<strong>".toList "</strong>".toList
      (by decide) (by decide) (by decide) (by decide) (by decide) (by decide) (by decide)
      (by decide) t.length t h3
  have i1 : countSubstr "\n\n".toList (italPass (boldPass t)) = 0 :=
    replaceEmphF_preserve "\n\n".toList "*".toList "<em>".toList "</em>".toList
      (by decide) (by decide) (by decide) (by decide) (by decide) (by decide) (by decide)
      (by decide) (boldPass t).length (boldPass t) b1
  have i2 : countSubstr "<p>".toList (italPass (boldPass t)) = 0 :=
    replaceEmphF_preserve "<p>".toList "*".toList "<em>".toList "</em>".toList
      (by decide) (by decide) (by decide) (by decide) (by decide) (by decide) (by decide)
      (by decide) (boldPass t).length (boldPass t) b2
  have i3 : countSubstr "</p>".toList (italPass (boldPass t)) = 0 :=
    replaceEmphF_preserve "</p>".toList "*".toList "<em>".toList "</em>".toList
      (by decide) (by decide) (by decide) (by decide) (by decide) (by decide) (by decide)
      (by decide) (boldPass t).length (boldPass t) b3
  -- with no blank line left, the paragraph pass is the identity
  have hpid : paraPass (italPass (boldPass t)) = italPass (boldPass t) :=
    replaceAllChunks_id "\n\n".toList "</p><p>".toList _ _ i1
  have u2 : countSubstr "<p>".toList (bulletPass (paraPass (italPass (boldPass t)))) = 0 := by
    rw [hpid]
    exact replaceAllChunks_preserve "<p>".toList "\n-".toList "<br>•".toList
      (by decide) (by decide) (by decide) (by decide) _ _ i2
  have u3 : countSubstr "</p>".toList (bulletPass (paraPass (italPass (boldPass t)))) = 0 := by
    rw [hpid]
    exact replaceAllChunks_preserve "</p>".toList "\n-".toList "<br>•".toList
      (by decide) (by decide) (by decide) (by decide) _ _ i3
  -- assemble the wrapped result
  unfold renderText
  refine ⟨?_, ?_, ?_, ?_⟩
  · have sp1 : Spanfree "<p>".toList "<p>".toList
        (bulletPass (paraPass (italPass (boldPass t))) ++ "</p>".toList) := by
      have hsp := spanfree_outof "<p>".toList "<p>".toList (by decide) (by decide) []
        (bulletPass (paraPass (italPass (boldPass t))) ++ "</p>".toList)
      rwa [List.nil_append] at hsp
    have sp2 : Spanfree "<p>".toList
        (bulletPass (paraPass (italPass (boldPass t)))) "</p>".toList := by
      have hsp := spanfree_into "<p>".toList "</p>".toList (by decide) (by decide)
        (bulletPass (paraPass (italPass (boldPass t)))) []
      rwa [List.append_nil] at hsp
    rw [List.append_assoc, countSubstr_append _ _ _ sp1, countSubstr_append _ _ _ sp2, u2]
    decide
  · have sp1 : Spanfree "</p>".toList "<p>".toList
        (bulletPass (paraPass (italPass (boldPass t))) ++ "</p>".toList) := by
      have hsp := spanfree_outof "</p>".toList "<p>".toList (by decide) (by decide) []
        (bulletPass (paraPass (italPass (boldPass t))) ++ "</p>".toList)
      rwa [List.nil_append] at hsp
    have sp2 : Spanfree "</p>".toList
        (bulletPass (paraPass (italPass (boldPass t)))) "</p>".toList := by
      have hsp := spanfree_into "</p>".toList "</p>".toList (by decide) (by decide)
        (bulletPass (paraPass (italPass (boldPass t)))) []
      rwa [List.append_nil] at hsp
    rw [List.append_assoc, countSubstr_append _ _ _ sp1, countSubstr_append _ _ _ sp2, u3]
    decide
  · exact (List.prefix_append "<p>".toList _).trans
      (by rw [List.append_assoc])
  · exact List.suffix_append _ "</p>".toList

/-! ## The typing-indicator ownership invariant -/

/-- Whether a log entry is the typing indicator. -/
def isTypingE : Entry → Bool
  | Entry.typing _ => true
  | _ => false

/-- Number of typing-indicator nodes attached to the log. -/
def typCount (l : List Entry) : Nat := l.countP isTypingE

/-- User-interface events: the synchronous prefixes of the two handlers
(up to their `await`), their continuations (arrival of the response or
of the error), and edits to the two input fields.  Letting continuations
fire at any moment over-approximates the real interleavings of the
single-threaded event loop, so an invariant over all event sequences
holds in particular for all real executions. -/
inductive Ev
  | startPreE
  | startResumeE (o : FetchOutcome StartData)
  | sendPreE
  | sendResumeE (o : FetchOutcome ChatData)
  | setUser (s : Str)
  | setMsg (s : Str)

/-- One event handled by the widget. -/
def stepEv : Ev → Widget → Widget
  | Ev.startPreE, w => (startSessionPre w).1
  | Ev.startResumeE o, w => startSessionResume o w
  | Ev.sendPreE, w => (sendPre w).1
  | Ev.sendResumeE o, w => sendResume o w
  | Ev.setUser s, w => { w with userInputVal := s }
  | Ev.setMsg s, w => { w with msgInputVal := s }

/-- The page-load state: empty log, no indicator, no session; the two
inputs may hold anything. -/
def initW (u m : Str) : Widget := ⟨[], none, 0, [], u, m⟩

/-- States reachable from page load by any sequence of events. -/
inductive Reachable : Widget → Prop
  | init (u m : Str) : Reachable (initW u m)
  | step {w : Widget} (e : Ev) : Reachable w → Reachable (stepEv e w)

/-- State invariant: node ids in the log stay below the fresh-id
counter, and the `typingEl` slot owns the attached indicators — none
attached when it is null, exactly the one referenced node attached when
it is set. -/
def Inv (w : Widget) : Prop :=
  (∀ i, Entry.typing i ∈ w.chat → i < w.nextId) ∧
  (match w.typingEl with
   | none => typCount w.chat = 0
   | some id => id < w.nextId ∧ typCount w.chat = 1 ∧
       ∀ i, Entry.typing i ∈ w.chat → i = id)

theorem typCount_eq_zero {l : List Entry} :
    typCount l = 0 ↔ ∀ i, Entry.typing i ∉ l := by
  rw [typCount, List.countP_eq_zero]
  constructor
  · intro h i hm
    have := h _ hm
    simp [isTypingE] at this
  · intro h a ha
    cases a with
    | message r m => simp [isTypingE]
    | typing i => exact absurd ha (h i)

theorem typCount_append (a b : List Entry) :
    typCount (a ++ b) = typCount a + typCount b :=
  List.countP_append _ _ _

/-- Removing the unique attached indicator leaves none attached. -/
theorem typCount_erase_attached {l : List Entry} {id : Nat}
    (hmem : Entry.typing id ∈ l) (hone : typCount l = 1) :
    typCount (l.erase (Entry.typing id)) = 0 := by
  obtain ⟨l₁, l₂, hn, hl, he⟩ := List.exists_erase_eq hmem
  rw [he]
  rw [hl, typCount, List.countP_append, List.countP_cons] at hone
  simp [isTypingE] at hone
  rw [typCount, List.countP_append]
  omega

/-- `addMessage` does not touch indicators or ids. -/
theorem Inv_addMessage {w : Widget} (r : Role) (txt : Str) (h : Inv w) :
    Inv (addMessage r txt w) := by
  obtain ⟨hfresh, hslot⟩ := h
  constructor
  · intro i hi
    simp only [addMessage, List.mem_append, List.mem_singleton] at hi
    rcases hi with hi | hi
    · exact hfresh i hi
    · exact absurd hi (by simp)
  · show (match w.typingEl with
      | none => typCount (w.chat ++ [Entry.message r (renderText txt)]) = 0
      | some id => id < w.nextId ∧
          typCount (w.chat ++ [Entry.message r (renderText txt)]) = 1 ∧
          ∀ i, Entry.typing i ∈ w.chat ++ [Entry.message r (renderText txt)] → i = id)
    cases he : w.typingEl with
    | none =>
      rw [he] at hslot
      rw [typCount_append, hslot]
      rfl
    | some id =>
      rw [he] at hslot
      obtain ⟨ha, hb, hc⟩ := hslot
      refine ⟨ha, ?_, ?_⟩
      · rw [typCount_append, hb]
        rfl
      · intro i hi
        simp only [List.mem_append, List.mem_singleton] at hi
        rcases hi with hi | hi
        · exact hc i hi
        · exact absurd hi (by simp)

theorem Inv_showTyping {w : Widget} (h : Inv w) : Inv (showTyping w) := by
  obtain ⟨hfresh, hslot⟩ := h
  cases he : w.typingEl with
  | some id =>
    have hsw : showTyping w = w := by rw [showTyping, he]
    rw [hsw]
    exact ⟨hfresh, hslot⟩
  | none =>
    have hsw : showTyping w =
        { w with
          chat := w.chat ++ [Entry.typing w.nextId]
          typingEl := some w.nextId
          nextId := w.nextId + 1 } := by
      rw [showTyping, he]
    rw [he] at hslot
    rw [hsw]
    refine ⟨?_, ?_, ?_, ?_⟩
    · intro i hi
      simp only [List.mem_append, List.mem_singleton] at hi
      rcases hi with hi | hi
      · exact Nat.lt_succ_of_lt (hfresh i hi)
      · cases hi
        exact Nat.lt_succ_self _
    · exact Nat.lt_succ_self _
    · rw [typCount_append, hslot]
      rfl
    · intro i hi
      simp only [List.mem_append, List.mem_singleton] at hi
      rcases hi with hi | hi
      · exact absurd hi (typCount_eq_zero.mp hslot i)
      · cases hi
        rfl

/-- After `hideTyping` the slot is empty and no indicator is attached
(given the ownership invariant); ids and the other fields are
untouched. -/
theorem hideTyping_clears {w : Widget} (h : Inv w) :
    (hideTyping w).typingEl = none ∧ typCount (hideTyping w).chat = 0 ∧
    (∀ i, Entry.typing i ∈ (hideTyping w).chat → i < w.nextId) ∧
    (hideTyping w).nextId = w.nextId := by
  obtain ⟨hfresh, hslot⟩ := h
  cases he : w.typingEl with
  | none =>
    have hh : hideTyping w = w := by rw [hideTyping, he]
    rw [he] at hslot
    rw [hh]
    exact ⟨he, hslot, hfresh, rfl⟩
  | some id =>
    rw [he] at hslot
    obtain ⟨ha, hb, hc⟩ := hslot
    by_cases hm : Entry.typing id ∈ w.chat
    · have hh : hideTyping w =
          { w with
            chat := w.chat.erase (Entry.typing id)
            typingEl := none } := by
        simp only [hideTyping, he]
        rw [if_pos hm]
      rw [hh]
      exact ⟨rfl, typCount_erase_attached hm hb,
        fun i hi => hfresh i (List.mem_of_mem_erase hi), rfl⟩
    · have hh : hideTyping w = { w with typingEl := none } := by
        simp only [hideTyping, he]
        rw [if_neg hm]
      rw [hh]
      refine ⟨rfl, ?_, hfresh, rfl⟩
      rw [typCount_eq_zero]
      intro i hi
      exact hm (hc i hi ▸ hi)

theorem Inv_hideTyping {w : Widget} (h : Inv w) : Inv (hideTyping w) := by
  obtain ⟨h1, h2, h3, h4⟩ := hideTyping_clears h
  refine ⟨by rw [h4]; exact h3, ?_⟩
  rw [h1]
  exact h2

theorem Inv_of_none {w : Widget} (he : w.typingEl = none)
    (hc : typCount w.chat = 0)
    (hf : ∀ i, Entry.typing i ∈ w.chat → i < w.nextId) : Inv w := by
  refine ⟨hf, ?_⟩
  rw [he]
  exact hc

theorem Inv_startSessionPre {w : Widget} (h : Inv w) : Inv (startSessionPre w).1 := by
  simp only [startSessionPre]
  split
  · exact h
  · exact Inv_showTyping h

theorem Inv_startSessionResume (o : FetchOutcome StartData) {w : Widget} (h : Inv w) :
    Inv (startSessionResume o w) := by
  cases o with
  | error => exact Inv_addMessage _ _ (Inv_hideTyping h)
  | reply ok data =>
    refine Inv_addMessage _ _ ?_
    exact Inv_of_none (hideTyping_clears h).1 rfl
      (fun i hi => absurd hi (List.not_mem_nil _))

theorem Inv_sendPre {w : Widget} (h : Inv w) : Inv (sendPre w).1 := by
  simp only [sendPre]
  split
  · exact h
  · exact Inv_showTyping (Inv_addMessage _ _ h)

theorem Inv_sendResume (o : FetchOutcome ChatData) {w : Widget} (h : Inv w) :
    Inv (sendResume o w) := by
  cases o with
  | error => exact Inv_addMessage _ _ (Inv_hideTyping h)
  | reply ok data => exact Inv_addMessage _ _ (Inv_hideTyping h)

theorem Inv_stepEv (e : Ev) {w : Widget} (h : Inv w) : Inv (stepEv e w) := by
  cases e with
  | startPreE => exact Inv_startSessionPre h
  | startResumeE o => exact Inv_startSessionResume o h
  | sendPreE => exact Inv_sendPre h
  | sendResumeE o => exact Inv_sendResume o h
  | setUser s => exact h
  | setMsg s => exact h

/-- Every reachable widget state satisfies the ownership invariant. -/
theorem Reachable_Inv {w : Widget} (h : Reachable w) : Inv w := by
  induction h with
  | init u m =>
    exact ⟨fun i hi => absurd hi (List.not_mem_nil _), rfl⟩
  | step e _ ih => exact Inv_stepEv e ih

/-- `showTyping` is a no-op whenever an indicator is already live. -/
theorem showTyping_noop {w : Widget} (h : w.typingEl ≠ none) : showTyping w = w := by
  cases he : w.typingEl with
  | none => exact absurd he h
  | some id => rw [showTyping, he]

/-- Under the invariant, two consecutive `showTyping` calls leave
exactly one indicator attached. -/
theorem showTyping_twice {w : Widget} (h : Inv w) :
    typCount (showTyping (showTyping w)).chat = 1 := by
  obtain ⟨hfresh, hslot⟩ := h
  cases he : w.typingEl with
  | some id =>
    have hsw : showTyping w = w := by rw [showTyping, he]
    rw [he] at hslot
    rw [hsw, hsw]
    exact hslot.2.1
  | none =>
    have hsw : showTyping w =
        { w with
          chat := w.chat ++ [Entry.typing w.nextId]
          typingEl := some w.nextId
          nextId := w.nextId + 1 } := by
      rw [showTyping, he]
    rw [he] at hslot
    have h2 : showTyping (showTyping w) = showTyping w := by
      rw [hsw]
      exact showTyping_noop (by simp)
    rw [h2, hsw]
    show typCount (w.chat ++ [Entry.typing w.nextId]) = 1
    rw [typCount_append, hslot]
    rfl

/-! ## Closed forms for single handler invocations -/

/-- Showing the indicator and hiding it again returns to the original
log (when no indicator was attached); only the id counter moves. -/
theorem hideTyping_showTyping {w : Widget} (he : w.typingEl = none)
    (hc : typCount w.chat = 0) :
    hideTyping (showTyping w) = { w with nextId := w.nextId + 1 } := by
  have hsw : showTyping w =
      { w with
        chat := w.chat ++ [Entry.typing w.nextId]
        typingEl := some w.nextId
        nextId := w.nextId + 1 } := by
    rw [showTyping, he]
  have hmem : Entry.typing w.nextId ∈ w.chat ++ [Entry.typing w.nextId] := by simp
  have hne : Entry.typing w.nextId ∉ w.chat := typCount_eq_zero.mp hc _
  rw [hsw]
  simp only [hideTyping]
  rw [if_pos hmem]
  have herase : (w.chat ++ [Entry.typing w.nextId]).erase (Entry.typing w.nextId) = w.chat := by
    rw [List.erase_append_right _ hne, List.erase_cons_head, List.append_nil]
  rw [herase, he]

/-- A failing `startSession` call (with a non-empty trimmed user id and
no indicator attached): the request is dispatched, `currentUser` is
assigned, and the failure message is appended to the untouched log. -/
theorem startSession_error {w : Widget} (hid : trim w.userInputVal ≠ [])
    (he : w.typingEl = none) (hc : typCount w.chat = 0) :
    startSession FetchOutcome.error w =
      (addMessage Role.assistant startFailMsg
        { w with
          currentUser := trim w.userInputVal
          nextId := w.nextId + 1 },
       [Request.start (trim w.userInputVal)]) := by
  simp only [startSession, startSessionPre]
  rw [if_neg hid]
  simp only [startSessionResume]
  rw [hideTyping_showTyping
    (w := { w with currentUser := trim w.userInputVal }) he hc]

theorem showTyping_currentUser (w : Widget) :
    (showTyping w).currentUser = w.currentUser := by
  rw [showTyping]
  split <;> rfl

theorem hideTyping_currentUser (w : Widget) :
    (hideTyping w).currentUser = w.currentUser := by
  rw [hideTyping]
  split
  · rfl
  · split <;> rfl

/-- `hideTyping` always leaves the slot empty. -/
theorem hideTyping_typingEl (w : Widget) : (hideTyping w).typingEl = none := by
  rw [hideTyping]
  split
  · rename_i he
    exact he
  · split <;> rfl

/-- A `startSession` call whose response arrives (with a non-empty
trimmed user id): the log is cleared and replaced by the one chosen
assistant message, the indicator is gone, and the session id is set. -/
theorem startSession_reply {w : Widget} (hid : trim w.userInputVal ≠ [])
    (ok : Bool) (data : Option StartData) :
    (startSession (FetchOutcome.reply ok data) w).1.chat
        = [Entry.message Role.assistant (renderText (startMessage ok data))] ∧
    (startSession (FetchOutcome.reply ok data) w).1.typingEl = none ∧
    (startSession (FetchOutcome.reply ok data) w).1.currentUser = trim w.userInputVal ∧
    (startSession (FetchOutcome.reply ok data) w).2
        = [Request.start (trim w.userInputVal)] := by
  have hpre : startSessionPre w =
      (showTyping { w with currentUser := trim w.userInputVal },
       some (Request.start (trim w.userInputVal))) := by
    simp only [startSessionPre]
    rw [if_neg hid]
  have hss : startSession (FetchOutcome.reply ok data) w =
      (startSessionResume (FetchOutcome.reply ok data)
        (showTyping { w with currentUser := trim w.userInputVal }),
       [Request.start (trim w.userInputVal)]) := by
    simp only [startSession]
    rw [hpre]
  rw [hss]
  refine ⟨?_, ?_, ?_, rfl⟩
  · simp only [startSessionResume, addMessage]
    rfl
  · simp only [startSessionResume, addMessage]
    exact hideTyping_typingEl _
  · simp only [startSessionResume, addMessage]
    show (hideTyping (showTyping
        { w with currentUser := trim w.userInputVal })).currentUser = trim w.userInputVal
    rw [hideTyping_currentUser, showTyping_currentUser]

/-- A failing `send` call (non-empty trimmed text, active session, no
indicator attached): the chat request is dispatched, the user message
and then the network-error message are appended, the input is cleared,
and no indicator remains. -/
theorem send_error {w : Widget} (ht : trim w.msgInputVal ≠ []) (hcu : w.currentUser ≠ [])
    (he : w.typingEl = none) (hc : typCount w.chat = 0) :
    (send FetchOutcome.error w).1.chat
        = w.chat ++ [Entry.message Role.user (renderText (trim w.msgInputVal)),
                     Entry.message Role.assistant (renderText chatFailMsg)] ∧
    (send FetchOutcome.error w).1.typingEl = none ∧
    typCount (send FetchOutcome.error w).1.chat = 0 ∧
    (send FetchOutcome.error w).1.msgInputVal = [] ∧
    (send FetchOutcome.error w).1.currentUser = w.currentUser ∧
    (send FetchOutcome.error w).2 = [Request.chat w.currentUser (trim w.msgInputVal)] := by
  have hor : ¬(trim w.msgInputVal = [] ∨ w.currentUser = []) := by
    intro h0
    rcases h0 with h0 | h0
    · exact ht h0
    · exact hcu h0
  have hpre : sendPre w =
      (showTyping { w with chat := w.chat ++ [Entry.message Role.user (renderText (trim w.msgInputVal))], msgInputVal := [] },
       some (Request.chat w.currentUser (trim w.msgInputVal))) := by
    simp only [sendPre]
    rw [if_neg hor]
    rfl
  have hW2c : typCount ({ w with chat := w.chat ++ [Entry.message Role.user (renderText (trim w.msgInputVal))], msgInputVal := [] } : Widget).chat = 0 := by
    show typCount (w.chat ++ [Entry.message Role.user (renderText (trim w.msgInputVal))]) = 0
    rw [typCount_append, hc]
    rfl
  have hht := hideTyping_showTyping
    (w := { w with chat := w.chat ++ [Entry.message Role.user (renderText (trim w.msgInputVal))], msgInputVal := [] })
    he hW2c
  have hsend : send FetchOutcome.error w =
      (sendResume FetchOutcome.error
        (showTyping { w with chat := w.chat ++ [Entry.message Role.user (renderText (trim w.msgInputVal))], msgInputVal := [] }),
       [Request.chat w.currentUser (trim w.msgInputVal)]) := by
    simp only [send]
    rw [hpre]
  rw [hsend]
  simp only [sendResume, addMessage]
  rw [hht]
  refine ⟨?_, he, ?_, by trivial, by trivial, by trivial⟩
  · show (w.chat ++ [Entry.message Role.user (renderText (trim w.msgInputVal))]) ++
        [Entry.message Role.assistant (renderText chatFailMsg)]
      = w.chat ++ [Entry.message Role.user (renderText (trim w.msgInputVal)),
                   Entry.message Role.assistant (renderText chatFailMsg)]
    rw [List.append_assoc]
    rfl
  · show typCount ((w.chat ++ [Entry.message Role.user (renderText (trim w.msgInputVal))]) ++
        [Entry.message Role.assistant (renderText chatFailMsg)]) = 0
    rw [typCount_append, typCount_append, hc]
    rfl

theorem startSessionResume_currentUser (o : FetchOutcome StartData) (w : Widget) :
    (startSessionResume o w).currentUser = w.currentUser := by
  cases o with
  | error =>
    show (hideTyping w).currentUser = w.currentUser
    rw [hideTyping_currentUser]
  | reply ok data =>
    show (hideTyping w).currentUser = w.currentUser
    rw [hideTyping_currentUser]

theorem sendResume_currentUser (o : FetchOutcome ChatData) (w : Widget) :
    (sendResume o w).currentUser = w.currentUser := by
  cases o with
  | error =>
    show (hideTyping w).currentUser = w.currentUser
    rw [hideTyping_currentUser]
  | reply ok data =>
    show (hideTyping w).currentUser = w.currentUser
    rw [hideTyping_currentUser]

/-! ## Concrete states used to instantiate the theorems -/

/-- A page-load state with `' alice '` typed into the user-id field. -/
def w0 : Widget := ⟨[], none, 0, [], " alice ".toList, []⟩

/-- A state with an active session for `alice` and `' hi '` typed into
the message field. -/
def wMsg : Widget := ⟨[], none, 0, "alice".toList, [], " hi ".toList⟩

/-- An active session for `alice` with `' bob '` typed into the user-id
field. -/
def wActive : Widget := ⟨[], none, 0, "alice".toList, " bob ".toList, []⟩

/-- A state whose `typingEl` reference holds a node that is not
attached to the log. -/
def wDetached : Widget := ⟨[], some 0, 1, [], [], []⟩

/-! ## The claims -/

/-- Claim C1 (as stated) is false at a concrete input: a `startSession`
invocation from the Idle state (`currentUser` empty, non-empty trimmed
user id) whose network step fails leaves `currentUser` equal to the
submitted id `"alice"`, not the empty string — line 61 of `app.js`
assigns `currentUser` before the request is awaited. -/
theorem c1_counterexample :
    w0.currentUser = [] ∧ trim w0.userInputVal ≠ [] ∧ w0.typingEl = none ∧
    typCount w0.chat = 0 ∧
    (startSession FetchOutcome.error w0).1.currentUser ≠ [] ∧
    (startSession FetchOutcome.error w0).1.currentUser = "alice".toList := by
  decide

/-- Claim C1, amended: for every `startSession` invocation from the
Idle state (`currentUser` empty, no indicator, non-empty trimmed user
id) whose network request or JSON parse fails, the typing indicator is
hidden and a generic failure message is appended to the log, but the
session state does **not** remain unset: `currentUser` is set to the
submitted trimmed id before the request resolves.  The user may still
retry: pressing start again re-dispatches the request. -/
theorem c1_start_failure {w : Widget} (_hcu : w.currentUser = [])
    (hid : trim w.userInputVal ≠ []) (he : w.typingEl = none)
    (hc : typCount w.chat = 0) :
    (startSession FetchOutcome.error w).1.chat
        = w.chat ++ [Entry.message Role.assistant (renderText startFailMsg)] ∧
    (startSession FetchOutcome.error w).1.typingEl = none ∧
    typCount (startSession FetchOutcome.error w).1.chat = 0 ∧
    (startSession FetchOutcome.error w).1.currentUser = trim w.userInputVal ∧
    (startSession FetchOutcome.error w).1.currentUser ≠ [] ∧
    (startSessionPre (startSession FetchOutcome.error w).1).2
        = some (Request.start (trim w.userInputVal)) := by
  rw [startSession_error hid he hc]
  simp only [addMessage]
  refine ⟨by trivial, he, ?_, by trivial, hid, ?_⟩
  · show typCount (w.chat ++ [Entry.message Role.assistant (renderText startFailMsg)]) = 0
    rw [typCount_append, hc]
    rfl
  · simp only [startSessionPre]
    rw [if_neg hid]

theorem c1_start_failure_witness :
    (w0.currentUser = [] ∧ trim w0.userInputVal ≠ [] ∧ w0.typingEl = none ∧
      typCount w0.chat = 0) ∧
    (startSession FetchOutcome.error w0).1.currentUser = trim w0.userInputVal :=
  ⟨⟨by decide, by decide, by decide, by decide⟩,
    (c1_start_failure (w := w0) (by decide) (by decide) (by decide) (by decide)).2.2.2.1⟩

/-- Claim C2 (as stated) is false at concrete inputs: a failing (thus
non-successful) `startSession` call assigns `currentUser`, and a second
`startSession` call mutates an already-set `currentUser` from `"alice"`
to `"bob"`. -/
theorem c2_counterexample :
    (w0.currentUser = [] ∧
      (startSession FetchOutcome.error w0).1.currentUser ≠ w0.currentUser) ∧
    (wActive.currentUser = "alice".toList ∧ wActive.currentUser ≠ [] ∧
      (startSession (FetchOutcome.reply true (some ⟨some "Hi".toList⟩))
        wActive).1.currentUser = "bob".toList) := by
  decide

/-- Claim C2, amended: `currentUser` is assigned by **every**
`startSession` invocation whose trimmed user id is non-empty — before
the response arrives and regardless of the outcome — and is left
unchanged by an invocation with an empty trimmed id; `send` never
modifies it. -/
theorem c2_currentUser_assignment :
    (∀ (w : Widget) (o : FetchOutcome StartData), trim w.userInputVal ≠ [] →
      (startSession o w).1.currentUser = trim w.userInputVal) ∧
    (∀ (w : Widget) (o : FetchOutcome StartData), trim w.userInputVal = [] →
      (startSession o w).1 = w) ∧
    (∀ (w : Widget) (o : FetchOutcome ChatData),
      (send o w).1.currentUser = w.currentUser) := by
  refine ⟨?_, ?_, ?_⟩
  · intro w o hid
    have hpre : startSessionPre w =
        (showTyping { w with currentUser := trim w.userInputVal },
         some (Request.start (trim w.userInputVal))) := by
      simp only [startSessionPre]
      rw [if_neg hid]
    simp only [startSession]
    rw [hpre]
    show (startSessionResume o
        (showTyping { w with currentUser := trim w.userInputVal })).currentUser
      = trim w.userInputVal
    rw [startSessionResume_currentUser, showTyping_currentUser]
  · intro w o h
    simp only [startSession, startSessionPre]
    rw [if_pos h]
  · intro w o
    by_cases hg : trim w.msgInputVal = [] ∨ w.currentUser = []
    · simp only [send, sendPre]
      rw [if_pos hg]
    · simp only [send, sendPre]
      rw [if_neg hg]
      show (sendResume o (showTyping
        { addMessage Role.user (trim w.msgInputVal) w with msgInputVal := [] })).currentUser
        = w.currentUser
      rw [sendResume_currentUser, showTyping_currentUser]
      rfl

theorem c2_currentUser_assignment_witness :
    trim w0.userInputVal ≠ [] ∧
    (startSession FetchOutcome.error w0).1.currentUser = trim w0.userInputVal :=
  ⟨by decide, c2_currentUser_assignment.1 w0 FetchOutcome.error (by decide)⟩

/-- Claim C3 (as stated) is false at a concrete input: for
`t = "a\n\nb"` the output contains two paragraph containers — the
double newline becomes an internal `</p><p>` boundary. -/
theorem c3_counterexample :
    renderText "a\n\nb".toList = "<p>a</p><p>b</p>".toList ∧
    countSubstr "<p>".toList (renderText "a\n\nb".toList) = 2 ∧
    countSubstr "</p>".toList (renderText "a\n\nb".toList) = 2 := by
  decide

theorem c3_single_container_witness :
    (countSubstr "\n\n".toList "**a** *b*".toList = 0 ∧
      countSubstr "<p>".toList "**a** *b*".toList = 0 ∧
      countSubstr "</p>".toList "**a** *b*".toList = 0) ∧
    countSubstr "<p>".toList (renderText "**a** *b*".toList) = 1 ∧
    countSubstr "</p>".toList (renderText "**a** *b*".toList) = 1 :=
  ⟨⟨by decide, by decide, by decide⟩,
    (renderText_single_container "**a** *b*".toList (by decide) (by decide) (by decide)).1,
    (renderText_single_container "**a** *b*".toList (by decide) (by decide) (by decide)).2.1⟩

/-- Claim C4: in every reachable state at most one typing-indicator
node is attached to the log; `showTyping` is a no-op when an indicator
is already live; and from any reachable state two consecutive
`showTyping` calls leave exactly one indicator node attached. -/
theorem c4_single_indicator :
    (∀ w : Widget, Reachable w → typCount w.chat ≤ 1) ∧
    (∀ w : Widget, w.typingEl ≠ none → showTyping w = w) ∧
    (∀ w : Widget, Reachable w → typCount (showTyping (showTyping w)).chat = 1) := by
  refine ⟨?_, ?_, ?_⟩
  · intro w hr
    obtain ⟨-, hslot⟩ := Reachable_Inv hr
    cases he : w.typingEl with
    | none =>
      rw [he] at hslot
      have h0 : typCount w.chat = 0 := hslot
      omega
    | some id =>
      rw [he] at hslot
      have h1 : id < w.nextId ∧ typCount w.chat = 1 ∧
          ∀ i, Entry.typing i ∈ w.chat → i = id := hslot
      omega
  · intro w h
    exact showTyping_noop h
  · intro w hr
    exact showTyping_twice (Reachable_Inv hr)

theorem c4_single_indicator_witness :
    typCount (showTyping (showTyping (initW [] []))).chat = 1 ∧
    typCount (initW [] []).chat ≤ 1 :=
  ⟨c4_single_indicator.2.2 (initW [] []) (Reachable.init [] []),
   c4_single_indicator.1 (initW [] []) (Reachable.init [] [])⟩

/-- Claim C5: a `startSession` invocation (non-empty trimmed user id)
whose response has ok status and parses to a body with the non-empty
message `m` hides the indicator, clears the log, sets the session state
to the submitted id, and leaves the log holding exactly one assistant
message rendering `m` (for the spec's example, `m = "Hi"`). -/
theorem c5_start_success {w : Widget} (hid : trim w.userInputVal ≠ [])
    (m : Str) (hm : m ≠ []) :
    (startSession (FetchOutcome.reply true (some ⟨some m⟩)) w).1.chat
        = [Entry.message Role.assistant (renderText m)] ∧
    (startSession (FetchOutcome.reply true (some ⟨some m⟩)) w).1.typingEl = none ∧
    (startSession (FetchOutcome.reply true (some ⟨some m⟩)) w).1.currentUser
        = trim w.userInputVal := by
  have h := startSession_reply hid true (some ⟨some m⟩)
  have hmsg : startMessage true (some ⟨some m⟩) = m := by
    simp only [startMessage]
    rw [if_neg hm]
  rw [hmsg] at h
  exact ⟨h.1, h.2.1, h.2.2.1⟩

theorem c5_start_success_witness :
    (trim w0.userInputVal ≠ [] ∧ ("Hi".toList : Str) ≠ []) ∧
    (startSession (FetchOutcome.reply true (some ⟨some "Hi".toList⟩)) w0).1.chat
        = [Entry.message Role.assistant (renderText "Hi".toList)] :=
  ⟨⟨by decide, by decide⟩,
    (c5_start_success (w := w0) (by decide) "Hi".toList (by decide)).1⟩

/-- Claim C6: a `send` invocation with empty trimmed text or no active
session silently does nothing — the state (log, inputs, session,
indicator) is unchanged and no request is dispatched. -/
theorem c6_send_noop {w : Widget} (o : FetchOutcome ChatData)
    (h : trim w.msgInputVal = [] ∨ w.currentUser = []) :
    send o w = (w, []) := by
  simp only [send, sendPre]
  rw [if_pos h]

theorem c6_send_noop_witness :
    (trim wActive.msgInputVal = [] ∨ wActive.currentUser = []) ∧
    send FetchOutcome.error wActive = (wActive, []) :=
  ⟨by decide, c6_send_noop FetchOutcome.error (by decide)⟩

/-- Claim C7: a `send` invocation (non-empty trimmed text, active
session, indicator idle) whose network call is rejected or whose body
is not JSON is caught rather than rethrown (the handler is total), the
typing indicator is hidden so none remains attached, and the log gains
the user's message followed by the generic network-error assistant
message, in that order. -/
theorem c7_send_transport_error {w : Widget} (ht : trim w.msgInputVal ≠ [])
    (hcu : w.currentUser ≠ []) (he : w.typingEl = none) (hc : typCount w.chat = 0) :
    (send FetchOutcome.error w).1.chat
        = w.chat ++ [Entry.message Role.user (renderText (trim w.msgInputVal)),
                     Entry.message Role.assistant (renderText chatFailMsg)] ∧
    (send FetchOutcome.error w).1.typingEl = none ∧
    typCount (send FetchOutcome.error w).1.chat = 0 := by
  have h := send_error ht hcu he hc
  exact ⟨h.1, h.2.1, h.2.2.1⟩

theorem c7_send_transport_error_witness :
    (trim wMsg.msgInputVal ≠ [] ∧ wMsg.currentUser ≠ [] ∧ wMsg.typingEl = none ∧
      typCount wMsg.chat = 0) ∧
    (send FetchOutcome.error wMsg).1.chat
        = wMsg.chat ++ [Entry.message Role.user (renderText (trim wMsg.msgInputVal)),
                        Entry.message Role.assistant (renderText chatFailMsg)] :=
  ⟨⟨by decide, by decide, by decide, by decide⟩,
    (c7_send_transport_error (w := wMsg) (by decide) (by decide) (by decide) (by decide)).1⟩

/-- Claim C8: `hideTyping` is safe in every slot state — a no-op when
no indicator reference is held; when the reference is held but the node
is detached from the log, no removal is attempted (the log is
unchanged) and the reference is dropped; when the node is attached it
is removed from the log. -/
theorem c8_hideTyping_safe :
    (∀ w : Widget, w.typingEl = none → hideTyping w = w) ∧
    (∀ (w : Widget) (id : Nat), w.typingEl = some id → Entry.typing id ∉ w.chat →
      (hideTyping w).chat = w.chat ∧ (hideTyping w).typingEl = none) ∧
    (∀ (w : Widget) (id : Nat), w.typingEl = some id → Entry.typing id ∈ w.chat →
      (hideTyping w).chat = w.chat.erase (Entry.typing id) ∧
      (hideTyping w).typingEl = none) := by
  refine ⟨?_, ?_, ?_⟩
  · intro w he
    rw [hideTyping, he]
  · intro w id he hm
    simp only [hideTyping, he]
    rw [if_neg hm]
    exact ⟨rfl, rfl⟩
  · intro w id he hm
    simp only [hideTyping, he]
    rw [if_pos hm]
    exact ⟨rfl, rfl⟩

theorem c8_hideTyping_safe_witness :
    (wDetached.typingEl = some 0 ∧ Entry.typing 0 ∉ wDetached.chat) ∧
    (hideTyping wDetached).chat = wDetached.chat ∧
    (hideTyping wDetached).typingEl = none :=
  ⟨⟨by decide, by decide⟩, c8_hideTyping_safe.2.1 wDetached 0 (by decide) (by decide)⟩

/-- Claim C9: the substitutions of `renderText` are applied in a fixed
order (bold, then italic, then paragraph breaks, then bullets), each
non-greedy and left-to-right; bold and italic compose
(`"**a** *b*"`), bold wins over italic on `"**a**"`, the italic match
is non-greedy on `"*a* *b*"`, paragraph breaks and bullets follow
emphasis (`"a\n\nb\n-c"`), and on `"***a***"` the leftmost lazy bold
match is taken first. -/
theorem c9_renderText_order :
    renderText "**a** *b*".toList = "<p><strong>a</strong> <em>b</em></p>".toList ∧
    renderText "**a**".toList = "<p><strong>a</strong></p>".toList ∧
    renderText "*a* *b*".toList = "<p><em>a</em> <em>b</em></p>".toList ∧
    renderText "a\n\nb\n-c".toList = "<p>a</p><p>b<br>•c</p>".toList ∧
    renderText "***a***".toList = "<p><strong><em>a</strong></em></p>".toList := by
  decide

/-- Claim C10: as soon as `startSession` passes its non-empty-userId
validation — before the network step resolves, hence regardless of its
outcome — `currentUser` equals the submitted trimmed id and the
`start_session` request is dispatched; in particular `send`'s
active-session precondition already holds while the request is in
flight. -/
theorem c10_currentUser_before_dispatch {w : Widget} (hid : trim w.userInputVal ≠ []) :
    (startSessionPre w).1.currentUser = trim w.userInputVal ∧
    (startSessionPre w).2 = some (Request.start (trim w.userInputVal)) ∧
    (startSessionPre w).1.currentUser ≠ [] := by
  have hpre : startSessionPre w =
      (showTyping { w with currentUser := trim w.userInputVal },
       some (Request.start (trim w.userInputVal))) := by
    simp only [startSessionPre]
    rw [if_neg hid]
  rw [hpre]
  have hcu : (showTyping { w with currentUser := trim w.userInputVal }).currentUser
      = trim w.userInputVal := by
    rw [showTyping_currentUser]
  exact ⟨hcu, rfl, by rw [hcu]; exact hid⟩

theorem c10_currentUser_before_dispatch_witness :
    trim w0.userInputVal ≠ [] ∧
    (startSessionPre w0).1.currentUser = trim w0.userInputVal ∧
    (startSessionPre w0).2 = some (Request.start (trim w0.userInputVal)) :=
  ⟨by decide,
    (c10_currentUser_before_dispatch (w := w0) (by decide)).1,
    (c10_currentUser_before_dispatch (w := w0) (by decide)).2.1⟩

end ChatWidget
